import Mathlib

/-!
Verification of the DragonScales core (spec.md) against a shallow embedding
of src/dragonscales: router.py (UCB1 bandit router and checkpoint store),
dragon.py (freshness cache with eligibility filter), cache.py (cache
backends).  Python floats are modelled exactly: rewards, prices and the
exploration coefficient as rationals, UCB scores as extended reals (EReal,
with top standing for the float value inf).  Python dicts are modelled as
insertion-ordered association lists; timestamps as integers (seconds).
The JSON byte encoding of checkpoints and cache payloads is abstracted to
the structured values it encodes (it is a bijection on well-formed data);
the empty-bytes guard of the checkpoint loader is folded into the absent
case.
-/

namespace DragonScales

/-- Association-list lookup: first entry whose key matches, mirroring a
Python dict read. -/
def alookup {β : Type} (l : List (String × β)) (k : String) : Option β :=
  (l.find? (fun p => p.1 == k)).map (fun p => p.2)

/-- Association-list write with Python dict semantics: overwrite the first
matching key in place, otherwise append a new entry at the end. -/
def upsert {β : Type} : List (String × β) → String → β → List (String × β)
  | [], k, v => [(k, v)]
  | p :: t, k, v => if p.1 == k then (k, v) :: t else p :: upsert t k v

theorem alookup_upsert_self {β : Type} (l : List (String × β)) (k : String) (v : β) :
    alookup (upsert l k v) k = some v := by
  induction l with
  | nil => simp [upsert, alookup]
  | cons p t ih =>
    by_cases hp : p.1 = k
    · simp [upsert, hp, alookup]
    · have hb : (p.1 == k) = false := by simpa [beq_eq_false_iff_ne] using hp
      simp only [upsert, hb, if_false]
      simp only [alookup, List.find?, hb] at ih ⊢
      exact ih

theorem alookup_cons_ne {β : Type} (p : String × β) (t : List (String × β))
    (k : String) (h : p.1 ≠ k) : alookup (p :: t) k = alookup t k := by
  have hb : (p.1 == k) = false := by simpa [beq_eq_false_iff_ne] using h
  simp [alookup, List.find?, hb]

/-- Expert (router.py): a routable candidate; metadata is opaque and never
inspected by the router logic. -/
structure Expert where
  id : String
  metadata : Option (List (String × String)) := none
deriving DecidableEq

/-- ExpertStats (router.py): pulls and accumulated reward. -/
structure ExpertStats where
  pulls : Nat
  reward_sum : ℚ
deriving DecidableEq

/-- ExpertStats.mean_reward: reward_sum / pulls if pulls else 0.0. -/
def ExpertStats.mean_reward (s : ExpertStats) : ℚ :=
  if s.pulls = 0 then 0 else s.reward_sum / (s.pulls : ℚ)

/-- Checkpoint payload written by UCBRouter._save: the experts list and the
state mapping. -/
structure Payload where
  experts : List Expert
  state : List (String × ExpertStats)
deriving DecidableEq

/-- Checkpoint storage (router.py Storage protocol): a keyed blob store,
with the JSON byte encoding abstracted to the payload it encodes. -/
abbrev Store := List (String × Payload)

def Store.save (s : Store) (k : String) (p : Payload) : Store := upsert s k p

def Store.load (s : Store) (k : String) : Option Payload := alookup s k

/-- UCBRouter state (router.py). -/
structure Router where
  experts : List Expert
  storage : Option Store
  checkpoint_key : String
  min_pulls : Nat
  exploration : ℚ
  state : List (String × ExpertStats)
deriving DecidableEq

/-- The zero-initialized state built in UCBRouter.__init__:
one zeroed entry per expert, in candidate order. -/
def initState (experts : List Expert) : List (String × ExpertStats) :=
  experts.map (fun e => (e.id, ⟨0, 0⟩))

/-- UCBRouter._load folded into construction: absent storage or missing key
(or empty blob) keeps the zero state, otherwise the loaded state mapping
replaces it wholesale. -/
def loadedState (storage : Option Store) (key : String)
    (st0 : List (String × ExpertStats)) : List (String × ExpertStats) :=
  match storage with
  | none => st0
  | some s =>
    match s.load key with
    | none => st0
    | some p => p.state

/-- UCBRouter.__init__ followed by _load. -/
def mkRouter (experts : List Expert) (storage : Option Store) (key : String)
    (min_pulls : Nat) (exploration : ℚ) : Router :=
  { experts := experts, storage := storage, checkpoint_key := key,
    min_pulls := min_pulls, exploration := exploration,
    state := loadedState storage key (initState experts) }

/-- The state update inside UCBRouter.record_reward: setdefault a zero entry,
then increment pulls and add the reward. -/
def recordUpdate (st : List (String × ExpertStats)) (id : String) (r : ℚ) :
    List (String × ExpertStats) :=
  let cur := (alookup st id).getD ⟨0, 0⟩
  upsert st id ⟨cur.pulls + 1, cur.reward_sum + r⟩

/-- UCBRouter.record_reward: update the stats entry, then _save the whole
payload to the storage backend when one is configured. -/
def Router.record_reward (r : Router) (id : String) (reward : ℚ) : Router :=
  let st := recordUpdate r.state id reward
  { r with
    state := st,
    storage := match r.storage with
      | none => none
      | some s => some (s.save r.checkpoint_key ⟨r.experts, st⟩) }

/-- Replaying a sequence of rewards for one id through record_reward. -/
def replay (r : Router) (id : String) (rs : List ℚ) : Router :=
  rs.foldl (fun acc q => acc.record_reward id q) r

/-- total_pulls as computed at the top of UCBRouter.select: the sum of pulls
over every entry of the state mapping. -/
def totalPulls (r : Router) : Nat :=
  (r.state.map (fun p => p.2.pulls)).sum

/-- Modelled from the spec: the total select is claimed to use, namely the
sum of pulls taken over the candidates of the fixed candidate list only. -/
def specCandidateTotal (r : Router) : Nat :=
  (r.experts.map (fun e => ((alookup r.state e.id).getD ⟨0, 0⟩).pulls)).sum

/-- Exceptions UCBRouter.select can raise. -/
inductive RouterErr where
  | indexError
  | valueError
  | zeroDivError
  | keyError (id : String)
deriving DecidableEq

/-- The score closure inside UCBRouter.select, given a stats entry:
inf when under min_pulls, otherwise the UCB1 value; dividing by zero pulls
(reachable only when min_pulls is 0) raises. -/
noncomputable def ucbScore (min_pulls : Nat) (exploration : ℚ) (total : Nat)
    (s : ExpertStats) : Except RouterErr EReal :=
  if s.pulls < min_pulls then .ok ⊤
  else if s.pulls = 0 then .error .zeroDivError
  else .ok (((s.mean_reward : ℝ) + (exploration : ℝ) *
      Real.sqrt (Real.log (total : ℝ) / (s.pulls : ℝ)) : ℝ) : EReal)

/-- score(expert) in UCBRouter.select: a missing state entry raises KeyError. -/
noncomputable def Router.scoreOf (r : Router) (total : Nat) (e : Expert) :
    Except RouterErr EReal :=
  match alookup r.state e.id with
  | none => .error (.keyError e.id)
  | some s => ucbScore r.min_pulls r.exploration total s

/-- The loop of Python max(iterable, key=score): remember the current best
item and its key, replace only on a strictly greater key. -/
noncomputable def pyMaxGo (f : Expert → Except RouterErr EReal) :
    Expert → EReal → List Expert → Except RouterErr Expert
  | best, _, [] => .ok best
  | best, bk, x :: xs =>
    match f x with
    | .error e => .error e
    | .ok sx => if bk < sx then pyMaxGo f x sx xs else pyMaxGo f best bk xs

/-- Python max(e :: xs, key=f): evaluate the first key, then scan. -/
noncomputable def pyMax (f : Expert → Except RouterErr EReal) (b : Expert)
    (xs : List Expert) : Except RouterErr Expert :=
  match f b with
  | .error e => .error e
  | .ok s => pyMaxGo f b s xs

/-- Pure counterpart of pyMaxGo for an exception-free key function. -/
noncomputable def pyMaxP (g : Expert → EReal) : Expert → List Expert → Expert
  | b, [] => b
  | b, x :: xs => if g b < g x then pyMaxP g x xs else pyMaxP g b xs

/-- UCBRouter.select. -/
noncomputable def Router.select (r : Router) : Except RouterErr Expert :=
  if totalPulls r = 0 then
    match r.experts with
    | [] => .error .indexError
    | e :: _ => .ok e
  else
    match r.experts with
    | [] => .error .valueError
    | e :: es => pyMax (r.scoreOf (totalPulls r)) e es

/-- Modelled from the spec: the per-candidate score of section 4.3, stated
on a stats entry: plus-infinity under min_pulls, otherwise
mean_reward + exploration * sqrt(ln total / pulls). -/
noncomputable def specScore (min_pulls : Nat) (exploration : ℚ) (total : Nat)
    (s : ExpertStats) : EReal :=
  if s.pulls < min_pulls then ⊤
  else (((s.mean_reward : ℝ) + (exploration : ℝ) *
      Real.sqrt (Real.log (total : ℝ) / (s.pulls : ℝ)) : ℝ) : EReal)

/-- The stats entry select reads for an expert (defaulting to zero where the
claim guarantees presence). -/
def statsOf (r : Router) (e : Expert) : ExpertStats :=
  (alookup r.state e.id).getD ⟨0, 0⟩

/-! dragon.py: the freshness cache and its eligibility filter.  Python
values reaching float() in Dragon._price_value are classified by how that
conversion behaves. -/

/-- A Python value as seen by float(): numbers (int, float, bool) convert,
numeric strings parse, non-numeric strings raise ValueError, None and other
objects raise TypeError. -/
inductive PVal where
  | num (q : ℚ)
  | strNum (q : ℚ)
  | strBad
  | noneV
  | otherV
deriving DecidableEq

/-- The try float(value) in Dragon._price_value: some q on success, none
when TypeError or ValueError is caught. -/
def pyFloat : PVal → Option ℚ
  | .num q => some q
  | .strNum q => some q
  | .strBad => none
  | .noneV => none
  | .otherV => none

/-- Pricing metadata: either a mapping or an object with (possibly absent)
prompt and completion attributes, as distinguished in Dragon._price_value. -/
inductive Pricing where
  | pmap (entries : List (String × PVal))
  | pobj (prompt completion : Option PVal)
deriving DecidableEq

/-- The value read for a key in Dragon._price_value: mapping get (absent
key gives None) or getattr with a None default. -/
def Pricing.getKey : Pricing → String → PVal
  | .pmap l, k => (alookup l k).getD .noneV
  | .pobj p _, "prompt" => p.getD .noneV
  | .pobj _ c, "completion" => c.getD .noneV
  | .pobj _ _, _ => .noneV

/-- Dragon._price_value: read the key from either shape, then try float. -/
def priceValue (p : Pricing) (k : String) : Option ℚ :=
  pyFloat (p.getKey k)

/-- A model descriptor as seen by Dragon._get_pricing: an object with a
pricing attribute, a mapping with an optional pricing key, or anything
else. -/
inductive Model where
  | objM (pricing : Option Pricing)
  | mapM (pricing : Option Pricing)
  | bareM
deriving DecidableEq

/-- Dragon._get_pricing. -/
def getPricing : Model → Option Pricing
  | .objM p => p
  | .mapM p => p
  | .bareM => none

/-- Dragon._is_free: pricing present, both prices convert, both exactly 0. -/
def isFree (m : Model) : Bool :=
  match getPricing m with
  | none => false
  | some pr =>
    match priceValue pr "prompt", priceValue pr "completion" with
    | some p, some c => p == 0 && c == 0
    | _, _ => false

/-! cache.py: the in-memory backend, and the Redis backend with the JSON
byte encoding abstracted to the values it encodes. -/

/-- InMemoryCache entries: key to (expires_at, value). -/
abbrev MemCache (α : Type) := List (String × (Option ℤ × α))

/-- InMemoryCache.get: lazy expiry, an entry with expires_at at or before
now is absent. -/
def memGet {α : Type} (entries : MemCache α) (now : ℤ) (k : String) : Option α :=
  match alookup entries k with
  | none => none
  | some (exp, v) =>
    match exp with
    | some e => if e ≤ now then none else some v
    | none => some v

/-- InMemoryCache.set: expires_at is now + ttl when a ttl is given, never
otherwise. -/
def memSet {α : Type} (entries : MemCache α) (now : ℤ) (k : String) (v : α)
    (ttl : Option ℤ) : MemCache α :=
  upsert entries k (ttl.map (fun d => now + d), v)

/-- A JSON value (the image of json.dumps on serializable data). -/
inductive JVal where
  | jnull
  | jbool (b : Bool)
  | jnum (q : ℚ)
  | jstr (s : String)
deriving DecidableEq

/-- Bytes held by the Redis server: a well-formed JSON encoding or
arbitrary other bytes. -/
inductive RBytes where
  | enc (j : JVal)
  | rawBad
deriving DecidableEq

/-- json.loads in RedisCache.get, with the except clause: malformed bytes
give none. -/
def jloads : RBytes → Option JVal
  | .enc j => some j
  | .rawBad => none

/-- The Redis server keyspace: key to (expiry time, stored bytes). -/
abbrev RedisSt := List (String × (Option ℤ × RBytes))

/-- RedisCache.set: a truthy ttl_seconds uses setex (native expiring key);
None or 0 uses a plain set that never expires. -/
def redisSet (st : RedisSt) (now : ℤ) (k : String) (v : JVal) (ttl : Option ℤ) :
    RedisSt :=
  match ttl with
  | some d => if d ≠ 0 then upsert st k (some (now + d), .enc v)
              else upsert st k (none, .enc v)
  | none => upsert st k (none, .enc v)

/-- RedisCache.get: the server hides expired keys; stored bytes are decoded,
undecodable bytes give none. -/
def redisGet (st : RedisSt) (now : ℤ) (k : String) : Option JVal :=
  match alookup st k with
  | none => none
  | some (exp, raw) =>
    match exp with
    | some e => if e ≤ now then none else jloads raw
    | none => jloads raw

/-! dragon.py: Dragon state and refresh_models.  The configured Cache
Backend is modelled by the in-memory variant's semantics (the Redis
variant agrees on unexpired reads); the wall clock is an explicit integer
argument, and the upstream client call is an explicit argument holding
either the raw model list or the error it raises. -/

/-- Dragon instance state. -/
structure DragonSt where
  ttl : ℤ
  cache : Option (MemCache (List Model))
  cache_key : String
  models : Option (List Model)
  last_refresh : Option ℤ
deriving DecidableEq

/-- An upstream fetch failure, opaque to the core. -/
inductive FetchErr where
  | fetchErr (code : Nat)
deriving DecidableEq

/-- The in-process branch of Dragon._cached_models: a stored copy younger
than the ttl. -/
def inProcHit (d : DragonSt) (now : ℤ) : Option (List Model) × DragonSt :=
  match d.models, d.last_refresh with
  | some ms, some lr => if now - lr < d.ttl then (some ms, d) else (none, d)
  | _, _ => (none, d)

/-- Dragon._cached_models: a configured backend is consulted first; a hit
also overwrites the in-process copy and last refresh time. -/
def cachedModels (d : DragonSt) (now : ℤ) : Option (List Model) × DragonSt :=
  match d.cache with
  | some c =>
    (match memGet c now d.cache_key with
     | some v => (some v, { d with models := some v, last_refresh := some now })
     | none => inProcHit d now)
  | none => inProcHit d now

/-- Dragon._fetch_free_models: the upstream listing filtered by _is_free;
an upstream error propagates. -/
def fetchFree (fetch : Except FetchErr (List Model)) : Except FetchErr (List Model) :=
  match fetch with
  | .error e => .error e
  | .ok raw => .ok (raw.filter isFree)

/-- Dragon.refresh_models. -/
def refresh_models (d : DragonSt) (force : Bool) (now : ℤ)
    (fetch : Except FetchErr (List Model)) :
    Except FetchErr (List Model) × DragonSt :=
  match (if force then (none, d) else cachedModels d now) with
  | (some ms, d') => (.ok ms, d')
  | (none, d') =>
    match fetchFree fetch with
    | .error e => (.error e, d')
    | .ok ms =>
      let d2 : DragonSt := { d' with models := some ms, last_refresh := some now }
      match d2.cache with
      | some c =>
        (.ok ms, { d2 with cache := some (memSet c now d2.cache_key ms (some d2.ttl)) })
      | none => (.ok ms, d2)

/-- Replaying a reward history of (id, reward) pairs through record_reward. -/
def replayAll (r : Router) (moves : List (String × ℚ)) : Router :=
  moves.foldl (fun acc m => acc.record_reward m.1 m.2) r

/-- Whether a configured backend fails to yield a valid entry now (true as
well when no backend is configured). -/
def cacheMiss (d : DragonSt) (now : ℤ) : Bool :=
  match d.cache with
  | none => true
  | some c => (memGet c now d.cache_key).isNone

/-- Whether the in-process copy exists and is younger than the ttl. -/
def freshInProc (d : DragonSt) (now : ℤ) : Bool :=
  match d.models, d.last_refresh with
  | some _, some lr => decide (now - lr < d.ttl)
  | _, _ => false

/-! Concrete fixtures used by witnesses: a Dragon whose backend holds a
valid entry, one with only a fresh in-process copy, one with nothing, and a
raw upstream listing with one free and one priced model. -/

def dHitEx : DragonSt := ⟨10, some [("ck", (some 100, [Model.bareM]))], "ck", none, none⟩

def dProcEx : DragonSt := ⟨10, none, "ck", some [Model.bareM], some 0⟩

def dMissEx : DragonSt := ⟨10, none, "ck", none, none⟩

def rawEx : List Model :=
  [Model.mapM (some (.pmap [("prompt", .num 0), ("completion", .num 0)])), Model.bareM]

/-! Helper lemmas about the router state updates. -/

theorem record_reward_state (r : Router) (id : String) (q : ℚ) :
    (r.record_reward id q).state = recordUpdate r.state id q := rfl

theorem record_reward_experts (r : Router) (id : String) (q : ℚ) :
    (r.record_reward id q).experts = r.experts := rfl

theorem alookup_recordUpdate_self (st : List (String × ExpertStats)) (id : String) (q : ℚ) :
    alookup (recordUpdate st id q) id =
      some ⟨((alookup st id).getD ⟨0, 0⟩).pulls + 1,
            ((alookup st id).getD ⟨0, 0⟩).reward_sum + q⟩ := by
  unfold recordUpdate
  exact alookup_upsert_self ..

theorem replay_lookup (id : String) (rs : List ℚ) : ∀ (r0 : Router) (p : Nat) (s : ℚ),
    alookup r0.state id = some ⟨p, s⟩ →
    alookup (replay r0 id rs).state id = some ⟨p + rs.length, s + rs.sum⟩ := by
  induction rs with
  | nil => intro r0 p s h; simpa [replay] using h
  | cons q t ih =>
    intro r0 p s h
    have h1 : alookup (r0.record_reward id q).state id = some ⟨p + 1, s + q⟩ := by
      rw [record_reward_state, alookup_recordUpdate_self, h]
      rfl
    have h2 := ih (r0.record_reward id q) (p + 1) (s + q) h1
    have h3 : replay r0 id (q :: t) = replay (r0.record_reward id q) id t := rfl
    rw [h3, h2]
    simp only [List.length_cons, List.sum_cons, Option.some.injEq, ExpertStats.mk.injEq]
    constructor
    · omega
    · ring

/-- C1: replaying rewards r_1..r_n for one candidate id from zero stats
yields pulls = n and reward_sum equal to the sum of the r_i; for n > 0 the
derived mean_reward lies within any interval containing every r_i (hence
within the min-max envelope); and one record_reward on an id with no entry
installs a fresh zero entry and then applies the update. -/
theorem C1_record_replay (r0 : Router) (id : String) (rs : List ℚ)
    (h0 : alookup r0.state id = some ⟨0, 0⟩) :
    alookup (replay r0 id rs).state id = some ⟨rs.length, rs.sum⟩ ∧
    (∀ lo hi : ℚ, (∀ q ∈ rs, lo ≤ q ∧ q ≤ hi) → rs ≠ [] →
      lo ≤ (ExpertStats.mk rs.length rs.sum).mean_reward ∧
      (ExpertStats.mk rs.length rs.sum).mean_reward ≤ hi) ∧
    (∀ (r' : Router) (q : ℚ), alookup r'.state id = none →
      alookup (r'.record_reward id q).state id = some ⟨0 + 1, 0 + q⟩) := by
  refine ⟨?_, ?_, ?_⟩
  · have := replay_lookup id rs r0 0 0 h0
    simpa using this
  · intro lo hi hbounds hne
    have hlen : 0 < rs.length := List.length_pos.mpr hne
    have hlenQ : (0 : ℚ) < (rs.length : ℚ) := by exact_mod_cast hlen
    have hlow : (rs.length : ℚ) * lo ≤ rs.sum := by
      have := List.card_nsmul_le_sum rs lo (fun q hq => (hbounds q hq).1)
      simpa [nsmul_eq_mul] using this
    have hhigh : rs.sum ≤ (rs.length : ℚ) * hi := by
      have := List.sum_le_card_nsmul rs hi (fun q hq => (hbounds q hq).2)
      simpa [nsmul_eq_mul] using this
    have hmean : (ExpertStats.mk rs.length rs.sum).mean_reward =
        rs.sum / (rs.length : ℚ) := by
      simp [ExpertStats.mean_reward, hlen.ne']
    constructor
    · rw [hmean, le_div_iff₀ hlenQ]
      linarith
    · rw [hmean, div_le_iff₀ hlenQ]
      linarith
  · intro r' q h
    rw [record_reward_state, alookup_recordUpdate_self, h]
    rfl

/-- Witness for C1 at a concrete fresh router and reward list. -/
theorem C1_record_replay_witness :
    alookup (mkRouter [⟨"a", none⟩] none "k" 1 (7/5)).state "a" = some ⟨0, 0⟩ ∧
    alookup (replay (mkRouter [⟨"a", none⟩] none "k" 1 (7/5)) "a"
        [1, (1 : ℚ)/2]).state "a" =
      some ⟨([1, (1 : ℚ)/2] : List ℚ).length, ([1, (1 : ℚ)/2] : List ℚ).sum⟩ :=
  ⟨by decide, (C1_record_replay _ "a" [1, (1 : ℚ)/2] (by decide)).1⟩

/-- C3: with a non-empty candidate list and a total pull count of zero,
select returns the first candidate; select is a pure function of the router
value, so any number of repeated calls without an intervening record_reward
returns that same first candidate. -/
theorem C3_cold_start (r : Router) (e : Expert) (es : List Expert)
    (h : totalPulls r = 0) (hx : r.experts = e :: es) :
    r.select = .ok e ∧
    ∀ n : Nat, List.replicate n r.select = List.replicate n (Except.ok e) := by
  have h1 : r.select = .ok e := by
    unfold Router.select
    rw [if_pos h, hx]
  exact ⟨h1, fun n => by rw [h1]⟩

/-- Witness for C3 at a concrete fresh two-candidate router. -/
theorem C3_cold_start_witness :
    totalPulls (mkRouter [⟨"a", none⟩, ⟨"b", none⟩] none "k" 1 (7/5)) = 0 ∧
    (mkRouter [⟨"a", none⟩, ⟨"b", none⟩] none "k" 1 (7/5)).experts =
      ⟨"a", none⟩ :: [⟨"b", none⟩] ∧
    (mkRouter [⟨"a", none⟩, ⟨"b", none⟩] none "k" 1 (7/5)).select =
      .ok ⟨"a", none⟩ :=
  ⟨by decide, by decide,
    (C3_cold_start (mkRouter [⟨"a", none⟩, ⟨"b", none⟩] none "k" 1 (7/5))
      ⟨"a", none⟩ [⟨"b", none⟩] (by decide) (by decide)).1⟩

/-- C5: a model is eligible iff its pricing resolves (pricing present, and
both the prompt and the completion price convert to a number) and both
prices are exactly zero; isFree is a total Boolean function, so missing or
malformed data yields ineligible rather than an error; and the mapping and
object presentations of the same prices are filtered identically. -/
theorem C5_eligibility (m : Model) :
    (isFree m = true ↔ ∃ pr, getPricing m = some pr ∧
      priceValue pr "prompt" = some 0 ∧ priceValue pr "completion" = some 0) ∧
    (∀ v1 v2 : PVal,
      isFree (.mapM (some (.pmap [("prompt", v1), ("completion", v2)]))) =
      isFree (.mapM (some (.pobj (some v1) (some v2))))) := by
  constructor
  · unfold isFree
    cases hg : getPricing m with
    | none => simp
    | some pr =>
      cases h1 : priceValue pr "prompt" with
      | none => simp [h1]
      | some p =>
        cases h2 : priceValue pr "completion" with
        | none => simp [h1, h2]
        | some c => simp [h1, h2, Bool.and_eq_true, beq_iff_eq]
  · intro v1 v2
    have ha : alookup [("prompt", v1), ("completion", v2)] "prompt" = some v1 := by
      simp [alookup, List.find?]
    have hb : alookup [("prompt", v1), ("completion", v2)] "completion" = some v2 := by
      simp [alookup, List.find?]
    simp [isFree, getPricing, priceValue, Pricing.getKey, ha, hb]

/-- C9 counterexample: on the persistent (Redis) backend, set with
ttl_seconds = 0 is a plain non-expiring write, so an immediate get returns
the value instead of absent. -/
theorem C9_counterexample :
    redisGet (redisSet ([] : RedisSt) 0 "k" (.jstr "v") (some 0)) 0 "k" =
      some (.jstr "v") ∧
    redisGet (redisSet ([] : RedisSt) 0 "k" (.jstr "v") (some 0)) 0 "k" ≠ none := by
  constructor
  · decide
  · decide

/-- C9 amended: set then get round-trips on both backends for an absent or
unexpired ttl and reports absent once now reaches expires_at, except that
the persistent backend treats ttl_seconds = 0 as no ttl (the entry never
expires and get returns the value); the in-memory backend does expire a
ttl-0 entry immediately. -/
theorem C9_cache_round_trip :
    (∀ (α : Type) (entries : MemCache α) (t1 t2 : ℤ) (k : String) (v : α)
        (ttl : Option ℤ),
      memGet (memSet entries t1 k v ttl) t2 k =
        (match ttl with
         | none => some v
         | some d => if t1 + d ≤ t2 then none else some v)) ∧
    (∀ (st : RedisSt) (t1 t2 : ℤ) (k : String) (v : JVal) (ttl : Option ℤ),
      redisGet (redisSet st t1 k v ttl) t2 k =
        (match ttl with
         | none => some v
         | some d => if d = 0 then some v
                     else if t1 + d ≤ t2 then none else some v)) := by
  constructor
  · intro α entries t1 t2 k v ttl
    cases ttl with
    | none => simp [memGet, memSet, alookup_upsert_self]
    | some d => simp [memGet, memSet, alookup_upsert_self]
  · intro st t1 t2 k v ttl
    cases ttl with
    | none => simp [redisGet, redisSet, alookup_upsert_self, jloads]
    | some d =>
      by_cases hd : d = 0
      · simp [redisGet, redisSet, hd, alookup_upsert_self, jloads]
      · simp [redisGet, redisSet, hd, alookup_upsert_self, jloads]

/-- Sums of pulls agree between the candidate list and the state mapping
when the state keys are exactly the candidate ids, without repetition. -/
theorem sum_pulls_eq : ∀ (es : List Expert) (st : List (String × ExpertStats)),
    st.map Prod.fst = es.map Expert.id → (st.map Prod.fst).Nodup →
    (es.map (fun e => ((alookup st e.id).getD ⟨0, 0⟩).pulls)).sum =
      (st.map (fun p => p.2.pulls)).sum := by
  intro es
  induction es with
  | nil =>
    intro st hk _
    have : st = [] := by
      cases st with
      | nil => rfl
      | cons p t => simp at hk
    subst this
    rfl
  | cons e es ih =>
    intro st hk hnd
    cases st with
    | nil => simp at hk
    | cons p t =>
      simp only [List.map_cons, List.cons.injEq] at hk
      obtain ⟨hpe, ht⟩ := hk
      simp only [List.map_cons, List.nodup_cons] at hnd
      obtain ⟨hpnotin, hndt⟩ := hnd
      have hhead : alookup (p :: t) e.id = some p.2 := by
        simp [alookup, List.find?, beq_iff_eq, hpe]
      have htail : ∀ e' ∈ es,
          ((alookup (p :: t) e'.id).getD ⟨0, 0⟩).pulls =
          ((alookup t e'.id).getD ⟨0, 0⟩).pulls := by
        intro e' he'
        have hne : p.1 ≠ e'.id := by
          intro hc
          apply hpnotin
          rw [ht, hc]
          exact List.mem_map_of_mem Expert.id he'
        rw [alookup_cons_ne p t e'.id hne]
      rw [List.map_cons, List.map_cons, List.sum_cons, List.sum_cons, hhead,
        List.map_congr_left htail, ih t ht hndt]
      rfl

/-- C4 counterexample: after recording a reward for an id outside the
candidate list (reachable through the public record_reward API, and likewise
through checkpoint loading), the total select uses differs from the sum of
pulls over the fixed candidate list. -/
theorem C4_counterexample :
    totalPulls ((mkRouter [⟨"a", none⟩] none "k" 1 (7/5)).record_reward "b" 1) = 1 ∧
    specCandidateTotal
      ((mkRouter [⟨"a", none⟩] none "k" 1 (7/5)).record_reward "b" 1) = 0 ∧
    totalPulls ((mkRouter [⟨"a", none⟩] none "k" 1 (7/5)).record_reward "b" 1) ≠
      specCandidateTotal
        ((mkRouter [⟨"a", none⟩] none "k" 1 (7/5)).record_reward "b" 1) := by
  refine ⟨by decide, by decide, by decide⟩

/-- C4 amended: the total select uses (for the cold-start test and inside
every confidence term) is the sum of pulls over all entries of the stats
map, retained non-candidate ids included; it coincides with the sum over
the fixed candidate list exactly in states whose stats keys are the
candidate ids without repetition. -/
theorem C4_total_pulls (r : Router)
    (hkeys : r.state.map Prod.fst = r.experts.map Expert.id)
    (hnd : (r.state.map Prod.fst).Nodup) :
    totalPulls r = (r.state.map (fun p => p.2.pulls)).sum ∧
    totalPulls r = specCandidateTotal r := by
  refine ⟨rfl, ?_⟩
  unfold totalPulls specCandidateTotal
  exact (sum_pulls_eq r.experts r.state hkeys hnd).symm

/-- Witness for the amended C4 at a concrete fresh router whose stats keys
are its candidate ids. -/
theorem C4_total_pulls_witness :
    (mkRouter [⟨"a", none⟩, ⟨"b", none⟩] none "k" 1 (7/5)).state.map Prod.fst =
      (mkRouter [⟨"a", none⟩, ⟨"b", none⟩] none "k" 1 (7/5)).experts.map Expert.id ∧
    ((mkRouter [⟨"a", none⟩, ⟨"b", none⟩] none "k" 1 (7/5)).state.map Prod.fst).Nodup ∧
    totalPulls (mkRouter [⟨"a", none⟩, ⟨"b", none⟩] none "k" 1 (7/5)) =
      specCandidateTotal (mkRouter [⟨"a", none⟩, ⟨"b", none⟩] none "k" 1 (7/5)) :=
  ⟨by decide, by decide,
    (C4_total_pulls (mkRouter [⟨"a", none⟩, ⟨"b", none⟩] none "k" 1 (7/5))
      (by decide) (by decide)).2⟩

/-! C8: checkpoint round trip. -/

theorem replayAll_inv (moves : List (String × ℚ)) : ∀ r : Router,
    r.storage ≠ none →
    loadedState r.storage r.checkpoint_key (initState r.experts) = r.state →
    (replayAll r moves).storage ≠ none ∧
    (replayAll r moves).checkpoint_key = r.checkpoint_key ∧
    (replayAll r moves).experts = r.experts ∧
    loadedState (replayAll r moves).storage (replayAll r moves).checkpoint_key
      (initState (replayAll r moves).experts) = (replayAll r moves).state := by
  induction moves with
  | nil => intro r hs hinv; exact ⟨hs, rfl, rfl, hinv⟩
  | cons m t ih =>
    intro r hs hinv
    obtain ⟨s, hs'⟩ : ∃ s, r.storage = some s := by
      cases hst : r.storage with
      | none => exact absurd hst hs
      | some s => exact ⟨s, rfl⟩
    set r' := r.record_reward m.1 m.2 with hr'
    have hst' : r'.storage =
        some (s.save r.checkpoint_key ⟨r.experts, recordUpdate r.state m.1 m.2⟩) := by
      simp [hr', Router.record_reward, hs']
    have hinv' : loadedState r'.storage r'.checkpoint_key (initState r'.experts) =
        r'.state := by
      rw [hst']
      show loadedState _ r.checkpoint_key _ = recordUpdate r.state m.1 m.2
      simp [loadedState, Store.load, Store.save, alookup_upsert_self]
    have hstep : replayAll r (m :: t) = replayAll r' t := rfl
    have := ih r' (by rw [hst']; exact Option.some_ne_none _) hinv'
    rw [hstep]
    exact ⟨this.1, this.2.1, this.2.2.1, this.2.2.2⟩

/-- C8: a router constructed against the storage written by another router
instance with the same candidate set (a fresh instance replaying an
arbitrary reward history against an initially empty store) reproduces that
instance's stats map exactly; constructing with an absent store, or with a
store missing the checkpoint key, yields the all-zero initial state. -/
theorem C8_checkpoint_round_trip (experts : List Expert) (key : String)
    (mp mp2 : Nat) (ex ex2 : ℚ) (moves : List (String × ℚ)) :
    (mkRouter experts
        (replayAll (mkRouter experts (some []) key mp ex) moves).storage
        key mp2 ex2).state =
      (replayAll (mkRouter experts (some []) key mp ex) moves).state ∧
    (mkRouter experts none key mp2 ex2).state = initState experts ∧
    (∀ s : Store, s.load key = none →
      (mkRouter experts (some s) key mp2 ex2).state = initState experts) := by
  refine ⟨?_, rfl, ?_⟩
  · set r0 := mkRouter experts (some []) key mp ex with hr0
    have hbase : loadedState r0.storage r0.checkpoint_key (initState r0.experts) =
        r0.state := rfl
    have h := replayAll_inv moves r0 (Option.some_ne_none _) hbase
    set r1 := replayAll r0 moves
    show loadedState r1.storage key (initState experts) = r1.state
    have hkey : r1.checkpoint_key = key := h.2.1
    have hexp : r1.experts = experts := h.2.2.1
    calc loadedState r1.storage key (initState experts)
        = loadedState r1.storage r1.checkpoint_key (initState r1.experts) := by
          rw [hkey, hexp]
      _ = r1.state := h.2.2.2
  · intro s hs
    simp [mkRouter, loadedState, hs]

/-- Witness for C8 at a concrete two-candidate history, including the
missing-key case on the empty store. -/
theorem C8_checkpoint_round_trip_witness :
    (mkRouter [⟨"a", none⟩, ⟨"b", none⟩]
        (replayAll (mkRouter [⟨"a", none⟩, ⟨"b", none⟩] (some []) "k" 1 (7/5))
          [("a", 1), ("b", (1 : ℚ)/2)]).storage "k" 1 (7/5)).state =
      (replayAll (mkRouter [⟨"a", none⟩, ⟨"b", none⟩] (some []) "k" 1 (7/5))
        [("a", 1), ("b", (1 : ℚ)/2)]).state ∧
    Store.load ([] : Store) "k" = none ∧
    (mkRouter [⟨"a", none⟩, ⟨"b", none⟩] (some ([] : Store)) "k" 1 (7/5)).state =
      initState [⟨"a", none⟩, ⟨"b", none⟩] :=
  ⟨(C8_checkpoint_round_trip [⟨"a", none⟩, ⟨"b", none⟩] "k" 1 1 (7/5) (7/5)
      [("a", 1), ("b", (1 : ℚ)/2)]).1,
    by decide,
    (C8_checkpoint_round_trip [⟨"a", none⟩, ⟨"b", none⟩] "k" 1 1 (7/5) (7/5)
      [("a", 1), ("b", (1 : ℚ)/2)]).2.2 [] (by decide)⟩

/-! C10: wholesale state replacement on load, and the KeyError select then
raises on a candidate with no stats entry. -/

theorem ucbScore_ok (mp : Nat) (ex : ℚ) (total : Nat) (st : ExpertStats)
    (hmp : 1 ≤ mp) : ∃ v, ucbScore mp ex total st = .ok v := by
  unfold ucbScore
  by_cases h : st.pulls < mp
  · exact ⟨⊤, by rw [if_pos h]⟩
  · have hz : ¬ st.pulls = 0 := by omega
    exact ⟨_, by rw [if_neg h, if_neg hz]⟩

theorem pyMaxGo_error (f : Expert → Except RouterErr EReal) (e : Expert)
    (err : RouterErr) (he : f e = .error err) (rest : List Expert) :
    ∀ (pre : List Expert) (best : Expert) (bk : EReal),
      (∀ x ∈ pre, ∃ v, f x = .ok v) →
      pyMaxGo f best bk (pre ++ e :: rest) = .error err := by
  intro pre
  induction pre with
  | nil =>
    intro best bk _
    simp [pyMaxGo, he]
  | cons x pre ih =>
    intro best bk hok
    obtain ⟨v, hv⟩ := hok x (List.mem_cons_self x pre)
    have hrest : ∀ y ∈ pre, ∃ w, f y = .ok w :=
      fun y hy => hok y (List.mem_cons_of_mem x hy)
    simp only [List.cons_append, pyMaxGo, hv]
    by_cases hlt : bk < v
    · rw [if_pos hlt]
      exact ih x v hrest
    · rw [if_neg hlt]
      exact ih best bk hrest

theorem pyMax_first_error (f : Expert → Except RouterErr EReal) (err : RouterErr)
    (pre : List Expert) (e : Expert) (rest : List Expert)
    (he : f e = .error err) (hok : ∀ x ∈ pre, ∃ v, f x = .ok v) :
    ∀ (b : Expert) (xs : List Expert), b :: xs = pre ++ e :: rest →
      pyMax f b xs = .error err := by
  intro b xs hbx
  cases pre with
  | nil =>
    simp only [List.nil_append, List.cons.injEq] at hbx
    obtain ⟨hb, hxs⟩ := hbx
    subst hb; subst hxs
    simp [pyMax, he]
  | cons q pre' =>
    simp only [List.cons_append, List.cons.injEq] at hbx
    obtain ⟨hb, hxs⟩ := hbx
    subst hxs
    rw [hb]
    obtain ⟨v, hv⟩ := hok q (List.mem_cons_self q pre')
    simp only [pyMax, hv]
    exact pyMaxGo_error f e err he rest pre' q v
      (fun x hx => hok x (List.mem_cons_of_mem q hx))

/-- C10: loading a checkpoint replaces the zero-initialized stats map
wholesale, so a candidate omitted from the loaded state mapping has no
stats entry; with a nonzero total pull count, select then fails with a
KeyError on the first such candidate instead of treating it as zero
stats. -/
theorem C10_wholesale_load (experts pre rest : List Expert) (e : Expert)
    (s : Store) (key : String) (mp : Nat) (ex : ℚ) (p : Payload)
    (hmp : 1 ≤ mp)
    (hload : s.load key = some p)
    (hsplit : experts = pre ++ e :: rest)
    (hmiss : alookup p.state e.id = none)
    (hok : ∀ x ∈ pre, (alookup p.state x.id).isSome = true)
    (htotal : totalPulls (mkRouter experts (some s) key mp ex) ≠ 0) :
    alookup (mkRouter experts (some s) key mp ex).state e.id = none ∧
    (mkRouter experts (some s) key mp ex).select = .error (.keyError e.id) := by
  set r := mkRouter experts (some s) key mp ex with hr
  have hstate : r.state = p.state := by
    simp [hr, mkRouter, loadedState, hload]
  have hmiss' : alookup r.state e.id = none := by rw [hstate]; exact hmiss
  refine ⟨hmiss', ?_⟩
  have hexp : r.experts = experts := rfl
  have hfe : r.scoreOf (totalPulls r) e = .error (.keyError e.id) := by
    simp [Router.scoreOf, hmiss']
  have hfok : ∀ x ∈ pre, ∃ v, r.scoreOf (totalPulls r) x = .ok v := by
    intro x hx
    obtain ⟨st, hst⟩ := Option.isSome_iff_exists.mp (hok x hx)
    have hx' : alookup r.state x.id = some st := by rw [hstate]; exact hst
    obtain ⟨v, hv⟩ := ucbScore_ok mp ex (totalPulls r) st hmp
    refine ⟨v, ?_⟩
    simp [Router.scoreOf, hx']
    exact hv
  unfold Router.select
  rw [if_neg htotal]
  cases hx : r.experts with
  | nil =>
    exfalso
    rw [hexp, hsplit] at hx
    exact List.cons_ne_nil e rest (List.append_eq_nil.mp hx).2
  | cons b xs =>
    exact pyMax_first_error (r.scoreOf (totalPulls r)) (.keyError e.id) pre e rest
      hfe hfok b xs (by rw [← hx, hexp, hsplit])

/-- Witness for C10: a checkpoint holding stats for candidate a only, with
two pulls recorded, makes select raise KeyError for candidate b. -/
theorem C10_wholesale_load_witness :
    Store.load [("k", ⟨[⟨"a", none⟩, ⟨"b", none⟩], [("a", ⟨2, 1⟩)]⟩)] "k" =
      some ⟨[⟨"a", none⟩, ⟨"b", none⟩], [("a", ⟨2, 1⟩)]⟩ ∧
    totalPulls (mkRouter [⟨"a", none⟩, ⟨"b", none⟩]
      (some [("k", ⟨[⟨"a", none⟩, ⟨"b", none⟩], [("a", ⟨2, 1⟩)]⟩)]) "k" 1 (7/5)) ≠ 0 ∧
    alookup (mkRouter [⟨"a", none⟩, ⟨"b", none⟩]
      (some [("k", ⟨[⟨"a", none⟩, ⟨"b", none⟩], [("a", ⟨2, 1⟩)]⟩)]) "k" 1
        (7/5)).state "b" = none ∧
    (mkRouter [⟨"a", none⟩, ⟨"b", none⟩]
      (some [("k", ⟨[⟨"a", none⟩, ⟨"b", none⟩], [("a", ⟨2, 1⟩)]⟩)]) "k" 1
        (7/5)).select = .error (.keyError "b") :=
  ⟨by decide, by decide,
    (C10_wholesale_load [⟨"a", none⟩, ⟨"b", none⟩] [⟨"a", none⟩] [] ⟨"b", none⟩
      [("k", ⟨[⟨"a", none⟩, ⟨"b", none⟩], [("a", ⟨2, 1⟩)]⟩)] "k" 1 (7/5)
      ⟨[⟨"a", none⟩, ⟨"b", none⟩], [("a", ⟨2, 1⟩)]⟩
      (by decide) (by decide) (by decide) (by decide) (by decide) (by decide)).1,
    (C10_wholesale_load [⟨"a", none⟩, ⟨"b", none⟩] [⟨"a", none⟩] [] ⟨"b", none⟩
      [("k", ⟨[⟨"a", none⟩, ⟨"b", none⟩], [("a", ⟨2, 1⟩)]⟩)] "k" 1 (7/5)
      ⟨[⟨"a", none⟩, ⟨"b", none⟩], [("a", ⟨2, 1⟩)]⟩
      (by decide) (by decide) (by decide) (by decide) (by decide) (by decide)).2⟩

/-! C2: select with a nonzero total is a stable argmax of the UCB score. -/

theorem pyMaxP_spec (g : Expert → EReal) : ∀ (xs : List Expert) (b : Expert),
    ∃ i : Nat, ∃ hi : i < (b :: xs).length,
      pyMaxP g b xs = (b :: xs).get ⟨i, hi⟩ ∧
      (∀ (j : Nat) (hj : j < (b :: xs).length),
        g ((b :: xs).get ⟨j, hj⟩) ≤ g ((b :: xs).get ⟨i, hi⟩)) ∧
      (∀ (j : Nat) (hj : j < (b :: xs).length), j < i →
        g ((b :: xs).get ⟨j, hj⟩) < g ((b :: xs).get ⟨i, hi⟩)) := by
  intro xs
  induction xs with
  | nil =>
    intro b
    refine ⟨0, by simp, rfl, ?_, ?_⟩
    · intro j hj
      have hj0 : j = 0 := by simpa using hj
      subst hj0
      exact le_refl _
    · intro j hj hji
      omega
  | cons x xs ih =>
    intro b
    by_cases hlt : g b < g x
    · obtain ⟨i, hi, heq, hle, hstrict⟩ := ih x
      have hi' : i + 1 < (b :: x :: xs).length := by
        simpa using Nat.succ_lt_succ hi
      refine ⟨i + 1, hi', ?_, ?_, ?_⟩
      · show pyMaxP g b (x :: xs) = _
        rw [show pyMaxP g b (x :: xs) = pyMaxP g x xs from by
          simp [pyMaxP, hlt]]
        exact heq
      · intro j hj
        cases j with
        | zero =>
          exact le_of_lt (lt_of_lt_of_le hlt (hle 0 (by simp)))
        | succ j' =>
          exact hle j' (by simpa using Nat.lt_of_succ_lt_succ hj)
      · intro j hj hji
        cases j with
        | zero =>
          exact lt_of_lt_of_le hlt (hle 0 (by simp))
        | succ j' =>
          exact hstrict j' (by simpa using Nat.lt_of_succ_lt_succ hj)
            (Nat.lt_of_succ_lt_succ hji)
    · obtain ⟨i, hi, heq, hle, hstrict⟩ := ih b
      have hxb : g x ≤ g b := le_of_not_lt hlt
      have hstep : pyMaxP g b (x :: xs) = pyMaxP g b xs := by
        simp [pyMaxP, hlt]
      cases i with
      | zero =>
        refine ⟨0, by simp, ?_, ?_, ?_⟩
        · rw [hstep]
          exact heq
        · intro j hj
          cases j with
          | zero => exact le_refl _
          | succ j' =>
            cases j' with
            | zero => exact hxb
            | succ j2 =>
              exact hle (j2 + 1) (by simpa using Nat.lt_of_succ_lt_succ hj)
        · intro j hj hji
          omega
      | succ k =>
        have hk : k + 2 < (b :: x :: xs).length := by
          simpa using Nat.succ_lt_succ hi
        have hb_le : g b ≤ g ((b :: xs).get ⟨k + 1, hi⟩) := hle 0 (by simp)
        have hb_lt : g b < g ((b :: xs).get ⟨k + 1, hi⟩) :=
          hstrict 0 (by simp) (Nat.succ_pos k)
        refine ⟨k + 2, hk, ?_, ?_, ?_⟩
        · rw [hstep]
          exact heq
        · intro j hj
          cases j with
          | zero => exact hb_le
          | succ j' =>
            cases j' with
            | zero => exact le_trans hxb hb_le
            | succ j2 =>
              exact hle (j2 + 1) (by simpa using Nat.lt_of_succ_lt_succ hj)
        · intro j hj hji
          cases j with
          | zero => exact hb_lt
          | succ j' =>
            cases j' with
            | zero => exact lt_of_le_of_lt hxb hb_lt
            | succ j2 =>
              exact hstrict (j2 + 1) (by simpa using Nat.lt_of_succ_lt_succ hj)
                (by omega)

theorem pyMaxGo_pure (f : Expert → Except RouterErr EReal) (g : Expert → EReal) :
    ∀ (xs : List Expert) (b : Expert),
      (∀ x ∈ xs, f x = .ok (g x)) →
      pyMaxGo f b (g b) xs = .ok (pyMaxP g b xs) := by
  intro xs
  induction xs with
  | nil => intro b _; rfl
  | cons x t ih =>
    intro b hok
    have hx := hok x (List.mem_cons_self x t)
    have ht : ∀ y ∈ t, f y = .ok (g y) :=
      fun y hy => hok y (List.mem_cons_of_mem x hy)
    simp only [pyMaxGo, hx]
    by_cases hlt : g b < g x
    · rw [if_pos hlt, show pyMaxP g b (x :: t) = pyMaxP g x t from by
        simp [pyMaxP, hlt]]
      exact ih x ht
    · rw [if_neg hlt, show pyMaxP g b (x :: t) = pyMaxP g b t from by
        simp [pyMaxP, hlt]]
      exact ih b ht

theorem pyMax_pure (f : Expert → Except RouterErr EReal) (g : Expert → EReal)
    (b : Expert) (xs : List Expert) (hok : ∀ x ∈ b :: xs, f x = .ok (g x)) :
    pyMax f b xs = .ok (pyMaxP g b xs) := by
  have hb := hok b (List.mem_cons_self b xs)
  simp only [pyMax, hb]
  exact pyMaxGo_pure f g xs b (fun x hx => hok x (List.mem_cons_of_mem b hx))

theorem scoreOf_spec (r : Router) (total : Nat) (e : Expert) (st : ExpertStats)
    (hst : alookup r.state e.id = some st) (hmp : 1 ≤ r.min_pulls) :
    r.scoreOf total e = .ok (specScore r.min_pulls r.exploration total st) := by
  simp only [Router.scoreOf, hst]
  unfold ucbScore specScore
  by_cases h : st.pulls < r.min_pulls
  · rw [if_pos h, if_pos h]
  · have hz : ¬ st.pulls = 0 := by omega
    rw [if_neg h, if_neg hz, if_neg h]

/-- C2: with a non-empty candidate list, a nonzero total pull count, the
default-or-larger min_pulls and a stats entry for every candidate, select
returns the candidate at an index whose spec score (plus-infinity under
min_pulls, otherwise mean_reward + exploration * sqrt(ln total / pulls)) is
maximal, every earlier candidate scoring strictly less: the stable argmax
over the fixed candidate order, ties resolved in favor of the earliest. -/
theorem C2_select_stable_argmax (r : Router)
    (hmp : 1 ≤ r.min_pulls)
    (htotal : ¬ totalPulls r = 0)
    (hne : r.experts ≠ [])
    (hpresent : ∀ e ∈ r.experts, (alookup r.state e.id).isSome = true) :
    ∃ i : Nat, ∃ hi : i < r.experts.length,
      r.select = .ok (r.experts.get ⟨i, hi⟩) ∧
      (∀ (j : Nat) (hj : j < r.experts.length),
        specScore r.min_pulls r.exploration (totalPulls r)
            (statsOf r (r.experts.get ⟨j, hj⟩)) ≤
          specScore r.min_pulls r.exploration (totalPulls r)
            (statsOf r (r.experts.get ⟨i, hi⟩))) ∧
      (∀ (j : Nat) (hj : j < r.experts.length), j < i →
        specScore r.min_pulls r.exploration (totalPulls r)
            (statsOf r (r.experts.get ⟨j, hj⟩)) <
          specScore r.min_pulls r.exploration (totalPulls r)
            (statsOf r (r.experts.get ⟨i, hi⟩))) := by
  obtain ⟨b, xs, hx⟩ : ∃ b xs, r.experts = b :: xs := by
    cases hc : r.experts with
    | nil => exact absurd hc hne
    | cons b xs => exact ⟨b, xs, rfl⟩
  set g : Expert → EReal :=
    fun e => specScore r.min_pulls r.exploration (totalPulls r) (statsOf r e)
    with hg
  have hok : ∀ e ∈ b :: xs, r.scoreOf (totalPulls r) e = .ok (g e) := by
    intro e he
    have hmem : e ∈ r.experts := by rw [hx]; exact he
    obtain ⟨st, hst⟩ := Option.isSome_iff_exists.mp (hpresent e hmem)
    have hstats : statsOf r e = st := by simp [statsOf, hst]
    rw [hg]
    simp only [hstats]
    exact scoreOf_spec r (totalPulls r) e st hst hmp
  have hsel : r.select = .ok (pyMaxP g b xs) := by
    unfold Router.select
    rw [if_neg htotal, hx]
    exact pyMax_pure _ g b xs hok
  obtain ⟨i, hi, heq, hle, hstrict⟩ := pyMaxP_spec g xs b
  rw [hx]
  exact ⟨i, hi, by rw [hsel, heq], hle, hstrict⟩

/-- Witness for C2 at a reachable router with one recorded pull on each of
two candidates. -/
theorem C2_select_stable_argmax_witness :
    (1 ≤ (replayAll (mkRouter [⟨"a", none⟩, ⟨"b", none⟩] none "k" 1 (7/5))
        [("a", 1), ("b", 0)]).min_pulls ∧
     ¬ totalPulls (replayAll (mkRouter [⟨"a", none⟩, ⟨"b", none⟩] none "k" 1 (7/5))
        [("a", 1), ("b", 0)]) = 0 ∧
     (replayAll (mkRouter [⟨"a", none⟩, ⟨"b", none⟩] none "k" 1 (7/5))
        [("a", 1), ("b", 0)]).experts ≠ [] ∧
     ∀ e ∈ (replayAll (mkRouter [⟨"a", none⟩, ⟨"b", none⟩] none "k" 1 (7/5))
        [("a", 1), ("b", 0)]).experts,
       (alookup (replayAll (mkRouter [⟨"a", none⟩, ⟨"b", none⟩] none "k" 1 (7/5))
          [("a", 1), ("b", 0)]).state e.id).isSome = true) ∧
    ∃ i : Nat,
      ∃ hi : i < (replayAll (mkRouter [⟨"a", none⟩, ⟨"b", none⟩] none "k" 1 (7/5))
          [("a", 1), ("b", 0)]).experts.length,
        (replayAll (mkRouter [⟨"a", none⟩, ⟨"b", none⟩] none "k" 1 (7/5))
            [("a", 1), ("b", 0)]).select =
          .ok ((replayAll (mkRouter [⟨"a", none⟩, ⟨"b", none⟩] none "k" 1 (7/5))
            [("a", 1), ("b", 0)]).experts.get ⟨i, hi⟩) :=
  ⟨⟨by decide, by decide, by decide, by decide⟩,
    match C2_select_stable_argmax
        (replayAll (mkRouter [⟨"a", none⟩, ⟨"b", none⟩] none "k" 1 (7/5))
          [("a", 1), ("b", 0)])
        (by decide) (by decide) (by decide) (by decide) with
    | ⟨i, hi, hsel, _, _⟩ => ⟨i, hi, hsel⟩⟩

/-! C6 and C7: refresh_models branch behavior and failure atomicity. -/

theorem inProcHit_not_fresh (d : DragonSt) (now : ℤ)
    (hfr : freshInProc d now = false) : inProcHit d now = (none, d) := by
  unfold inProcHit
  unfold freshInProc at hfr
  cases hm : d.models with
  | none => simp [hm]
  | some ms =>
    cases hl : d.last_refresh with
    | none => simp [hm, hl]
    | some lr =>
      rw [hm, hl] at hfr
      simp only [decide_eq_false_iff_not] at hfr
      simp [hm, hl, hfr]

theorem cachedModels_hit (d : DragonSt) (now : ℤ) (c : MemCache (List Model))
    (v : List Model) (hc : d.cache = some c)
    (hv : memGet c now d.cache_key = some v) :
    cachedModels d now =
      (some v, { d with models := some v, last_refresh := some now }) := by
  unfold cachedModels
  rw [hc]
  simp [hv]

theorem memGet_of_cacheMiss (d : DragonSt) (now : ℤ) (c : MemCache (List Model))
    (hmiss : cacheMiss d now = true) (hc : d.cache = some c) :
    memGet c now d.cache_key = none := by
  unfold cacheMiss at hmiss
  rw [hc] at hmiss
  exact Option.isNone_iff_eq_none.mp hmiss

theorem cachedModels_proc (d : DragonSt) (now : ℤ) (ms : List Model) (lr : ℤ)
    (hmiss : cacheMiss d now = true) (hm : d.models = some ms)
    (hl : d.last_refresh = some lr) (hf : now - lr < d.ttl) :
    cachedModels d now = (some ms, d) := by
  unfold cachedModels
  have hproc : inProcHit d now = (some ms, d) := by
    unfold inProcHit
    simp [hm, hl, hf]
  cases hc : d.cache with
  | none => exact hproc
  | some c =>
    simp only [memGet_of_cacheMiss d now c hmiss hc]
    exact hproc

theorem cachedModels_miss (d : DragonSt) (now : ℤ)
    (hmiss : cacheMiss d now = true) (hfr : freshInProc d now = false) :
    cachedModels d now = (none, d) := by
  unfold cachedModels
  have hproc := inProcHit_not_fresh d now hfr
  cases hc : d.cache with
  | none => exact hproc
  | some c =>
    simp only [memGet_of_cacheMiss d now c hmiss hc]
    exact hproc

theorem refresh_fetch_path (d : DragonSt) (now : ℤ)
    (raw : List Model) :
    (match fetchFree (.ok raw) with
      | .error e => ((.error e : Except FetchErr (List Model)), d)
      | .ok ms =>
        let d2 : DragonSt := { d with models := some ms, last_refresh := some now }
        match d2.cache with
        | some c =>
          (.ok ms, { d2 with cache := some (memSet c now d2.cache_key ms (some d2.ttl)) })
        | none => (.ok ms, d2)) =
      (.ok (raw.filter isFree),
       { d with
           models := some (raw.filter isFree)
           last_refresh := some now
           cache := d.cache.map (fun c =>
             memSet c now d.cache_key (raw.filter isFree) (some d.ttl)) }) := by
  cases hc : d.cache with
  | none => simp [fetchFree, hc]
  | some c => simp [fetchFree, hc]

/-- C6: refresh with force false returns a valid Cache-Backend entry first,
regardless of the in-process refresh time; otherwise a fresh in-process
copy; only otherwise does it take the fetch result, filter it, store it
in-process and in the backend under the same ttl and update the refresh
time; with force true the fetch path is always taken. -/
theorem C6_refresh_cases (d : DragonSt) (now : ℤ)
    (fetch : Except FetchErr (List Model)) :
    (∀ (c : MemCache (List Model)) (v : List Model),
      d.cache = some c → memGet c now d.cache_key = some v →
      refresh_models d false now fetch =
        (.ok v, { d with models := some v, last_refresh := some now })) ∧
    (∀ (ms : List Model) (lr : ℤ),
      cacheMiss d now = true → d.models = some ms → d.last_refresh = some lr →
      now - lr < d.ttl →
      refresh_models d false now fetch = (.ok ms, d)) ∧
    (∀ raw : List Model,
      cacheMiss d now = true → freshInProc d now = false →
      refresh_models d false now (.ok raw) =
        (.ok (raw.filter isFree),
         { d with
             models := some (raw.filter isFree)
             last_refresh := some now
             cache := d.cache.map (fun c =>
               memSet c now d.cache_key (raw.filter isFree) (some d.ttl)) })) ∧
    (∀ raw : List Model,
      refresh_models d true now (.ok raw) =
        (.ok (raw.filter isFree),
         { d with
             models := some (raw.filter isFree)
             last_refresh := some now
             cache := d.cache.map (fun c =>
               memSet c now d.cache_key (raw.filter isFree) (some d.ttl)) })) := by
  refine ⟨?_, ?_, ?_, ?_⟩
  · intro c v hc hv
    unfold refresh_models
    rw [if_neg (by simp), cachedModels_hit d now c v hc hv]
  · intro ms lr hmiss hm hl hf
    unfold refresh_models
    rw [if_neg (by simp), cachedModels_proc d now ms lr hmiss hm hl hf]
  · intro raw hmiss hfr
    unfold refresh_models
    rw [if_neg (by simp), cachedModels_miss d now hmiss hfr]
    exact refresh_fetch_path d now raw
  · intro raw
    unfold refresh_models
    rw [if_pos rfl]
    exact refresh_fetch_path d now raw

/-- C7: when refresh reaches the upstream fetch (forced, or both the
backend and the in-process copy miss) and the fetch raises, the error is
returned unmodified and the Dragon state, in-process copy and cache
included, is exactly what it was. -/
theorem C7_fetch_error_atomic (d : DragonSt) (force : Bool) (now : ℤ)
    (e : FetchErr)
    (h : force = true ∨ (cacheMiss d now = true ∧ freshInProc d now = false)) :
    refresh_models d force now (.error e) = (.error e, d) := by
  cases force with
  | true =>
    unfold refresh_models
    rw [if_pos rfl]
    rfl
  | false =>
    rcases h with h | ⟨hmiss, hfr⟩
    · exact absurd h (by simp)
    · unfold refresh_models
      rw [if_neg (by simp), cachedModels_miss d now hmiss hfr]
      rfl

/-- Witness for C6: each branch of refresh exercised at a concrete Dragon
state and clock. -/
theorem C6_refresh_cases_witness :
    (dHitEx.cache = some [("ck", (some 100, [Model.bareM]))] ∧
     memGet [("ck", (some 100, [Model.bareM]))] 5 dHitEx.cache_key =
       some [Model.bareM] ∧
     refresh_models dHitEx false 5 (.ok []) =
       (.ok [Model.bareM],
        { dHitEx with models := some [Model.bareM], last_refresh := some 5 })) ∧
    (cacheMiss dProcEx 5 = true ∧ dProcEx.models = some [Model.bareM] ∧
     dProcEx.last_refresh = some 0 ∧ (5 : ℤ) - 0 < dProcEx.ttl ∧
     refresh_models dProcEx false 5 (.ok []) = (.ok [Model.bareM], dProcEx)) ∧
    (cacheMiss dMissEx 5 = true ∧ freshInProc dMissEx 5 = false ∧
     refresh_models dMissEx false 5 (.ok rawEx) =
       (.ok (rawEx.filter isFree),
        { dMissEx with
            models := some (rawEx.filter isFree)
            last_refresh := some 5
            cache := dMissEx.cache.map (fun c =>
              memSet c 5 dMissEx.cache_key (rawEx.filter isFree)
                (some dMissEx.ttl)) })) ∧
    refresh_models dMissEx true 5 (.ok rawEx) =
      (.ok (rawEx.filter isFree),
       { dMissEx with
           models := some (rawEx.filter isFree)
           last_refresh := some 5
           cache := dMissEx.cache.map (fun c =>
             memSet c 5 dMissEx.cache_key (rawEx.filter isFree)
               (some dMissEx.ttl)) }) :=
  ⟨⟨by decide, by decide,
    (C6_refresh_cases dHitEx 5 (.ok [])).1 [("ck", (some 100, [Model.bareM]))]
      [Model.bareM] (by decide) (by decide)⟩,
   ⟨by decide, by decide, by decide, by decide,
    (C6_refresh_cases dProcEx 5 (.ok [])).2.1 [Model.bareM] 0
      (by decide) (by decide) (by decide) (by decide)⟩,
   ⟨by decide, by decide,
    (C6_refresh_cases dMissEx 5 (.ok rawEx)).2.2.1 rawEx (by decide) (by decide)⟩,
   (C6_refresh_cases dMissEx 5 (.ok rawEx)).2.2.2 rawEx⟩

/-- Witness for C7: a failed fetch on the empty Dragon state propagates the
error and leaves the state exactly as it was. -/
theorem C7_fetch_error_atomic_witness :
    (cacheMiss dMissEx 5 = true ∧ freshInProc dMissEx 5 = false) ∧
    refresh_models dMissEx false 5 (.error (.fetchErr 3)) =
      (.error (.fetchErr 3), dMissEx) :=
  ⟨⟨by decide, by decide⟩,
   C7_fetch_error_atomic dMissEx false 5 (.fetchErr 3)
     (Or.inr ⟨by decide, by decide⟩)⟩

end DragonScales
